import Mathlib

/-!
Verification development for the streaming worksheet XML serializer of the
bunspout repository.  The definitions below are a shallow embedding of the
TypeScript source (`writeSheetXml` and its helpers); stateful loops become
explicit state passing, JS `undefined`/`null` slots become `Option`, and the
numeric payloads that are only ever rendered verbatim into XML text are
modelled as `Nat`/`Int`.
-/

/-- Resolved cell type tags, from `CellResolved.t` in `src/types.ts`:
string, number, boolean, date, error. -/
inductive Tag where
  | s | n | b | d | e
deriving DecidableEq, Repr

/-- Payload of a resolved cell, from `CellResolved.v : string | number` in
`src/types.ts`. -/
inductive ResolvedValue where
  | vs (s : String)
  | vn (n : Int)
deriving DecidableEq, Repr

/-- `CellResolved` from `src/types.ts`: a type tag plus one literal payload. -/
structure CellResolved where
  t : Tag
  v : ResolvedValue
deriving DecidableEq, Repr

/-- The public cell value, from `Cell.value` in `src/types.ts`
(`string | number | Date | boolean | null | undefined`).  `null` and
`undefined` are conflated into `absent` (the code treats them identically);
a `Date` is carried as its Excel serial day number. -/
inductive CellValue where
  | str (s : String)
  | num (n : Int)
  | date (serial : Int)
  | boolean (b : Bool)
  | absent
deriving DecidableEq, Repr

/-- Explicit cell type tag, from `Cell.type` in `src/types.ts`. -/
inductive CellType where
  | string | number | date | boolean
deriving DecidableEq, Repr

/-- Public `Cell` from `src/types.ts`. -/
structure Cell where
  value : CellValue
  type : Option CellType := none
deriving DecidableEq, Repr

/-- `Row` from `src/types.ts`: a sparse cell array (absent slots are holes)
plus an optional 1-based row index. -/
structure Row where
  cells : List (Option Cell)
  rowIndex : Option Nat := none
deriving DecidableEq, Repr

/-- Modelled from the spec: the Cell Resolver (`src/xml/cell-resolver.ts` is
not among the provided sources).  Per spec §4.1: absent values resolve to an
empty string with the string tag; booleans resolve to "1"/"0" text with the
boolean tag; dates resolve to their Excel serial-day-number text with the
date tag; numbers and strings pass through unchanged. -/
def resolveCell (cell : Cell) : CellResolved :=
  match cell.value with
  | CellValue.str s => ⟨Tag.s, ResolvedValue.vs s⟩
  | CellValue.num n => ⟨Tag.n, ResolvedValue.vn n⟩
  | CellValue.date serial => ⟨Tag.d, ResolvedValue.vs (toString serial)⟩
  | CellValue.boolean b => ⟨Tag.b, ResolvedValue.vs (if b then "1" else "0")⟩
  | CellValue.absent => ⟨Tag.s, ResolvedValue.vs ""⟩

/-- Modelled from the spec: one character of `escapeXml`
(`src/utils/xml.ts` is not among the provided sources).  Per spec §6,
control characters 0x00-0x1F other than tab, newline and carriage return are
stripped before XML-escaping; the XML special characters become entities. -/
def escapeChar (c : Char) : String :=
  if c.toNat < 32 && c.toNat != 9 && c.toNat != 10 && c.toNat != 13 then ""
  else if c = '&' then "&amp;"
  else if c = '<' then "&lt;"
  else if c = '>' then "&gt;"
  else if c = '"' then "&quot;"
  else if c = Char.ofNat 39 then "&apos;"
  else String.singleton c

/-- Modelled from the spec: `escapeXml` from `src/utils/xml.ts` (not among
the provided sources), see `escapeChar`. -/
def escapeXml (s : String) : String :=
  String.join (s.toList.map escapeChar)

/-- The text rendering of a resolved payload.  For the string tag this is the
JS `resolved.v as string` cast (the resolver pairs the string tag only with
string payloads); for the other tags it is JS `String(resolved.v)`. -/
def resolvedText : ResolvedValue → String
  | ResolvedValue.vs s => s
  | ResolvedValue.vn n => toString n

/-- The XML letter of a resolved tag (`s`, `n`, `b`, `d`, `e`). -/
def tagString : Tag → String
  | Tag.s => "s"
  | Tag.n => "n"
  | Tag.b => "b"
  | Tag.d => "d"
  | Tag.e => "e"

/-- The loop of `columnIndexToLetter` (writer source, lines 30-34): the
second argument is the still-to-convert 1-based value; each step decrements,
emits `chr(65 + n % 26)` in front of the accumulator and divides by 26.
The first argument is fuel making the recursion structural; the loop counter
strictly decreases each pass, so it bounds its own iteration count and
`letterLoop k k acc` computes the loop exactly. -/
def letterLoop : Nat → Nat → List Char → List Char
  | _, 0, acc => acc
  | 0, _ + 1, acc => acc
  | fuel + 1, m + 1, acc => letterLoop fuel (m / 26) (Char.ofNat (65 + m % 26) :: acc)

/-- `columnIndexToLetter` from the writer source (lines 27-36): 0-based
column index to bijective base-26 letters. -/
def columnIndexToLetter (colIndex : Nat) : String :=
  ⟨letterLoop (colIndex + 1) (colIndex + 1) []⟩

/-- `getCellReference` from the writer source (lines 44-46). -/
def getCellReference (rowIndex : Nat) (colIndex : Nat) : String :=
  columnIndexToLetter colIndex ++ toString rowIndex

/-- `serializeCell` from the writer source (lines 56-83).  The row index is
1-based, the column index 0-based; `getStringIndex` is the optional
shared-string resolver. -/
def serializeCell (cell : Cell) (rowIndex : Nat) (colIndex : Nat)
    (getStringIndex : Option (String → Nat)) : String :=
  let resolved := resolveCell cell
  let cellRef := getCellReference rowIndex colIndex
  let styleAttr := " s=\"0\""
  let refAttr := " r=\"" ++ cellRef ++ "\""
  if resolved.t = Tag.s then
    match getStringIndex with
    | some f =>
        "<c" ++ refAttr ++ styleAttr ++ " t=\"s\"><v>" ++
          toString (f (resolvedText resolved.v)) ++ "</v></c>"
    | none =>
        "<c" ++ refAttr ++ styleAttr ++ " t=\"inlineStr\"><is><t>" ++
          escapeXml (resolvedText resolved.v) ++ "</t></is></c>"
  else
    let typeAttr := if resolved.t ≠ Tag.n then " t=\"" ++ tagString resolved.t ++ "\"" else ""
    "<c" ++ refAttr ++ styleAttr ++ typeAttr ++ "><v>" ++
      resolvedText resolved.v ++ "</v></c>"

/-- Bijective base-26 value of one letter (`A` = 1, ..., `Z` = 26). -/
def letterVal (c : Char) : Nat := c.toNat - 64

/-- Bijective base-26 value of a letter list. -/
def decodeLetters (l : List Char) : Nat :=
  l.foldl (fun acc c => acc * 26 + letterVal c) 0

/-- The `findIndex` scan of `serializeRow` (writer source, line 98): index of
the first present (neither null nor undefined) cell, `none` when JS returns
-1. -/
def firstPresentIdx : List (Option Cell) → Option Nat
  | [] => none
  | c :: cs => if c.isSome then some 0 else (firstPresentIdx cs).map (· + 1)

/-- The downward scan of `serializeRow` (writer source, lines 102-108): the
loop walks from the last slot towards the front and breaks at the first
present cell, i.e. it finds the greatest present index. -/
def lastPresentIdx : List (Option Cell) → Option Nat
  | [] => none
  | c :: cs =>
    match lastPresentIdx cs with
    | some j => some (j + 1)
    | none => if c.isSome then some 0 else none

/-- `firstCol` of `serializeRow` (writer source, lines 98-99): 1-based first
present column, 1 when the row holds no present cell. -/
def firstCol (cells : List (Option Cell)) : Nat :=
  match firstPresentIdx cells with
  | some i => i + 1
  | none => 1

/-- `lastCol` of `serializeRow` (writer source, lines 102-108): 1-based last
present column, falling back to `firstCol` when no present cell exists. -/
def lastCol (cells : List (Option Cell)) : Nat :=
  match lastPresentIdx cells with
  | some i => i + 1
  | none => firstCol cells

/-- The `cellsXml` computation of `serializeRow` (writer source, lines
111-123): the indexed map over the cell slots (holes render as the empty
string) joined with the empty separator, rendered as one recursion carrying
the current 0-based column index. -/
def rowCellsXmlAux (getStringIndex : Option (String → Nat)) (rowIndex : Nat) :
    Nat → List (Option Cell) → String
  | _, [] => ""
  | colIndex, c :: cs =>
    (match c with
     | none => ""
     | some cell => serializeCell cell rowIndex colIndex getStringIndex) ++
    rowCellsXmlAux getStringIndex rowIndex (colIndex + 1) cs

/-- The joined cell XML of one row (see `rowCellsXmlAux`). -/
def rowCellsXml (row : Row) (getStringIndex : Option (String → Nat)) : String :=
  rowCellsXmlAux getStringIndex (row.rowIndex.getD 1) 0 row.cells

/-- `serializeRow` from the writer source (lines 88-126).  The source also
feeds each present cell to the column width tracker; that update returns no
value and does not change the produced string, and is threaded explicitly in
the slow-path embedding below where its result is read. -/
def serializeRow (row : Row) (getStringIndex : Option (String → Nat)) : String :=
  let rowIndex := row.rowIndex.getD 1
  let rowIndexAttr := " r=\"" ++ toString rowIndex ++ "\""
  let spansAttr := " spans=\"" ++ toString (firstCol row.cells) ++ ":" ++
    toString (lastCol row.cells) ++ "\""
  "<row" ++ rowIndexAttr ++ spansAttr ++ ">" ++ rowCellsXml row getStringIndex ++ "</row>"

/-- The 0-based indices of the present cells of a row, in increasing order
(claim-side description of which slots hold cells). -/
def presentIndices : List (Option Cell) → List Nat
  | [] => []
  | c :: cs =>
    if c.isSome then 0 :: (presentIndices cs).map (· + 1)
    else (presentIndices cs).map (· + 1)

/-- Modelled from the spec: `ColumnWidthDefinition` from the `@xlsx/types`
module (not among the provided sources), shaped per spec §6: a single
0-based `columnIndex` or an inclusive `columnRange` pair (from, to), an
optional explicit `width` and an optional `autoDetect` flag.  Width values
are modelled as naturals since the writer only renders them verbatim. -/
structure ColumnWidthDefinition where
  columnIndex : Option Int := none
  columnRange : Option (Int × Int) := none
  width : Option Nat := none
  autoDetect : Option Bool := none
deriving DecidableEq, Repr

/-- One `<col .../>` line as pushed by `generateColsXml` (writer source,
lines 157, 172, 181, 196, 199, 207): 0-based bounds rendered 1-based. -/
def colEl (lo hi : Int) (width : Nat) : String :=
  "    <col min=\"" ++ toString (lo + 1) ++ "\" max=\"" ++ toString (hi + 1) ++
    "\" width=\"" ++ toString width ++ "\" customWidth=\"1\"/>"

/-- The mutable state of `generateColsXml`: the pushed `<col>` lines
(`colElements`) and the set of already-assigned columns
(`processedColumns`). -/
structure ColsState where
  elements : List String
  processed : List Int
deriving DecidableEq, Repr

/-- The ascending integer range `lo, lo+1, ..., hi`; used only under a
`lo ≤ hi` guard, mirroring the guarded `for` loops of the source. -/
def rangeList (lo hi : Int) : List Int :=
  (List.range ((hi - lo).toNat + 1)).map (fun k => lo + Int.ofNat k)

/-- The inner auto-detect loop over a clamped column range (writer source,
lines 168-176): each not-yet-assigned column with a tracked width gets its
own declaration. -/
def rangeAutoLoop (tracked : Int → Option Nat) : List Int → ColsState → ColsState
  | [], st => st
  | i :: is, st =>
    if i ∈ st.processed then rangeAutoLoop tracked is st
    else
      match tracked i with
      | some w => rangeAutoLoop tracked is ⟨st.elements ++ [colEl i i w], st.processed ++ [i]⟩
      | none => rangeAutoLoop tracked is st

/-- One step of the definition loop of `generateColsXml` (writer source,
lines 151-188): per-index definitions resolve `width ?? (autoDetect ?
tracked : undefined)` under the `colIndex <= maxColumnIndex` and
not-yet-assigned guards; range definitions clamp to
`[max 0 from, min maxColumnIndex to]`, auto-detect ranges loop per column,
explicit-width ranges emit one spanning declaration. -/
def applyDef (maxColumnIndex : Int) (tracked : Int → Option Nat)
    (st : ColsState) (d : ColumnWidthDefinition) : ColsState :=
  match d.columnIndex with
  | some colIndex =>
    if colIndex ≤ maxColumnIndex ∧ colIndex ∉ st.processed then
      match (match d.width with
             | some w => some w
             | none => if d.autoDetect.getD false then tracked colIndex else none) with
      | some w => ⟨st.elements ++ [colEl colIndex colIndex w], st.processed ++ [colIndex]⟩
      | none => st
    else st
  | none =>
    match d.columnRange with
    | some r =>
      let lo := max 0 r.1
      let hi := min maxColumnIndex r.2
      if lo ≤ hi then
        if d.autoDetect.getD false then rangeAutoLoop tracked (rangeList lo hi) st
        else
          match d.width with
          | some w => ⟨st.elements ++ [colEl lo hi w], st.processed ++ rangeList lo hi⟩
          | none => st
      else st
    | none => st

/-- The loop over the explicit width definitions (writer source, lines
150-189). -/
def processDefs (maxColumnIndex : Int) (tracked : Int → Option Nat) :
    List ColumnWidthDefinition → ColsState → ColsState
  | [], st => st
  | d :: ds, st => processDefs maxColumnIndex tracked ds (applyDef maxColumnIndex tracked st d)

/-- The pass over all columns `0..maxColumnIndex` (writer source, lines
192-203): a not-yet-assigned column gets its tracked width when observed,
else the configured default width when present. -/
def autoPassLoop (defaultWidth : Option Nat) (tracked : Int → Option Nat) :
    List Int → ColsState → ColsState
  | [], st => st
  | c :: cs, st =>
    if c ∈ st.processed then autoPassLoop defaultWidth tracked cs st
    else
      match tracked c with
      | some w =>
        autoPassLoop defaultWidth tracked cs ⟨st.elements ++ [colEl c c w], st.processed ++ [c]⟩
      | none =>
        match defaultWidth with
        | some dw =>
          autoPassLoop defaultWidth tracked cs ⟨st.elements ++ [colEl c c dw], st.processed ++ [c]⟩
        | none => autoPassLoop defaultWidth tracked cs st

/-- The `<col>` lines produced by `generateColsXml` (writer source, lines
142-212), before the surrounding `<cols>` element is assembled: early
return for a negative maximum column, the definition pass, the
tracked/default pass, and the single spanning declaration when nothing was
pushed but a default width is configured. -/
def generateColsXmlElements (maxColumnIndex : Int) (defaultWidth : Option Nat)
    (columnWidths : Option (List ColumnWidthDefinition))
    (trackedWidths : Int → Option Nat) : List String :=
  if maxColumnIndex < 0 then []
  else
    let st1 :=
      match columnWidths with
      | some defs => processDefs maxColumnIndex trackedWidths defs ⟨[], []⟩
      | none => ⟨[], []⟩
    let st2 := autoPassLoop defaultWidth trackedWidths (rangeList 0 maxColumnIndex) st1
    if st2.elements = [] then
      match defaultWidth with
      | some dw => [colEl 0 maxColumnIndex dw]
      | none => []
    else st2.elements

/-- `generateColsXml` from the writer source (lines 136-215): the pushed
lines joined by newlines inside a `<cols>` element, or the empty string
when there is nothing to declare. -/
def generateColsXml (maxColumnIndex : Int) (defaultWidth : Option Nat)
    (columnWidths : Option (List ColumnWidthDefinition))
    (trackedWidths : Int → Option Nat) : String :=
  match generateColsXmlElements maxColumnIndex defaultWidth columnWidths trackedWidths with
  | [] => ""
  | els => "<cols>\n" ++ String.intercalate "\n" els ++ "\n  </cols>"

/-- Modelled from the spec: `SheetColumnWidthOptions` from the `@xlsx/types`
module (not among the provided sources), shaped per spec §6:
`{ autoDetectColumnWidth, columnWidths, defaultColumnWidth }`, every field
optional. -/
structure SheetColumnWidthOptions where
  autoDetectColumnWidth : Option Bool := none
  columnWidths : Option (List ColumnWidthDefinition) := none
  defaultColumnWidth : Option Nat := none

/-- `WriteSheetXmlOptions` from the writer source (lines 10-20). -/
structure WriteSheetXmlOptions where
  getStringIndex : Option (String → Nat) := none
  columnWidths : Option SheetColumnWidthOptions := none

/-- Modelled from the spec: the Column Width Tracker state (§4.2;
`src/utils/column-widths.ts` is not among the provided sources): per column
the running maximum of a rendered-width heuristic, a no-op when constructed
disabled.  The heuristic itself is abstracted as the `widthOf` parameter of
the embedding; no claim depends on its values. -/
structure ColumnWidthTracker where
  enabled : Bool
  widths : List (Int × Nat)

/-- Insert-or-max update of one tracked column width (see
`ColumnWidthTracker`). -/
def setMaxWidth : List (Int × Nat) → Int → Nat → List (Int × Nat)
  | [], i, w => [(i, w)]
  | (j, v) :: rest, i, w =>
    if j = i then (j, max v w) :: rest else (j, v) :: setMaxWidth rest i w

/-- Modelled from the spec (§4.2): `updateColumnWidth` keeps the running
maximum for the column and does nothing when the tracker is disabled. -/
def updateColumnWidth (widthOf : Cell → Nat) (tk : ColumnWidthTracker)
    (colIndex : Int) (cell : Cell) : ColumnWidthTracker :=
  if tk.enabled then ⟨tk.enabled, setMaxWidth tk.widths colIndex (widthOf cell)⟩ else tk

/-- Modelled from the spec (§4.2): `getAllWidths`, read as a lookup map. -/
def getAllWidths (tk : ColumnWidthTracker) : Int → Option Nat :=
  fun i => (tk.widths.find? (fun p => p.1 == i)).map (fun p => p.2)

/-- The per-row width tracking of the slow path buffer loop (writer source,
lines 292-298): each present cell updates its column's tracked width. -/
def trackRow (widthOf : Cell → Nat) (tk : ColumnWidthTracker) (row : Row) :
    ColumnWidthTracker :=
  row.cells.enum.foldl
    (fun tk p =>
      match p.2 with
      | some cell => updateColumnWidth widthOf tk (Int.ofNat p.1) cell
      | none => tk) tk

/-- `generateSheetFormatPr` from the writer source (lines 220-225). -/
def generateSheetFormatPr : Option Nat → String
  | none => ""
  | some w => "    <sheetFormatPr defaultColWidth=\"" ++ toString w ++ "\"/>"

/-- The `needsColsXml` test of `writeSheetXml` (writer source, lines
253-255): a nonempty per-column definition list, or global auto-detect. -/
def needsColsXmlOf (options : Option WriteSheetXmlOptions) : Bool :=
  let cwo := options.bind (fun o => o.columnWidths)
  (match cwo.bind (fun c => c.columnWidths) with
   | some l => decide (0 < l.length)
   | none => false) ||
  (match cwo.bind (fun c => c.autoDetectColumnWidth) with
   | some b => b
   | none => false)

/-- The `needsWidthTracking` test of `writeSheetXml` (writer source, lines
258-260): global auto-detect, or some definition with `autoDetect` set. -/
def needsWidthTrackingOf (options : Option WriteSheetXmlOptions) : Bool :=
  let cwo := options.bind (fun o => o.columnWidths)
  (cwo.bind (fun c => c.autoDetectColumnWidth)).getD false ||
  ((cwo.bind (fun c => c.columnWidths)).getD []).any (fun d => d.autoDetect.getD false)

/-- The XML prolog and worksheet opening yielded first (writer source, line
246). -/
def xmlPrologue : String :=
  "<?xml version=\"1.0\" encoding=\"UTF-8\" standalone=\"yes\"?>\n<worksheet xmlns=\"http://schemas.openxmlformats.org/spreadsheetml/2006/main\">"

/-- The fast path of `writeSheetXml` after the prolog (writer source, lines
265-278): optional `sheetFormatPr`, then `<sheetData>`, one fragment per
row in arrival order, then the closing fragment.  The width tracker is
disabled on this path (`needsColsXml = false` forces
`needsWidthTracking = false`), so its updates inside `serializeRow` are
no-ops and its state is not threaded here. -/
def fastPathFragments (rows : List Row) (options : Option WriteSheetXmlOptions) :
    List String :=
  let getStringIndex := options.bind (fun o => o.getStringIndex)
  let cwo := options.bind (fun o => o.columnWidths)
  (match cwo.bind (fun c => c.defaultColumnWidth) with
   | some d => [generateSheetFormatPr (some d)]
   | none => []) ++ ["<sheetData>"] ++
  rows.map (fun r => serializeRow r getStringIndex) ++ ["</sheetData></worksheet>"]

/-- The slow (buffered) path of `writeSheetXml` after the prolog (writer
source, lines 285-329): buffer all rows while computing `maxColumnIndex`
and the tracked widths, then yield the nonempty `sheetFormatPr` and `cols`
fragments, `<sheetData>`, each buffered row in original order, and the
closing fragment.  `getAllWidths` is read (line 310) before the buffered
rows are serialized, so the serialization-time tracker updates (line 326)
cannot influence the cols block and the row fragments are pure. -/
def slowPathFragments (widthOf : Cell → Nat) (rows : List Row)
    (options : Option WriteSheetXmlOptions) : List String :=
  let getStringIndex := options.bind (fun o => o.getStringIndex)
  let cwo := options.bind (fun o => o.columnWidths)
  let needsWidthTracking := needsWidthTrackingOf options
  let maxColumnIndex : Int :=
    rows.foldl (fun m r => max m (Int.ofNat r.cells.length - 1)) (-1)
  let tracker :=
    rows.foldl
      (fun tk r => if needsWidthTracking then trackRow widthOf tk r else tk)
      ⟨needsWidthTracking, []⟩
  let sheetFormatPr := generateSheetFormatPr (cwo.bind (fun c => c.defaultColumnWidth))
  let colsXml :=
    if needsColsXmlOf options then
      generateColsXml maxColumnIndex (cwo.bind (fun c => c.defaultColumnWidth))
        (cwo.bind (fun c => c.columnWidths)) (getAllWidths tracker)
    else ""
  (if sheetFormatPr ≠ "" then [sheetFormatPr] else []) ++
  (if colsXml ≠ "" then [colsXml] else []) ++ ["<sheetData>"] ++
  rows.map (fun r => serializeRow r getStringIndex) ++ ["</sheetData></worksheet>"]

/-- `writeSheetXml` from the writer source (lines 242-330), as the list of
yielded fragments: the prolog, then the fast path when no per-column width
output is required, else the buffered slow path. -/
def writeSheetXml (widthOf : Cell → Nat) (rows : List Row)
    (options : Option WriteSheetXmlOptions) : List String :=
  xmlPrologue ::
    (if needsColsXmlOf options then slowPathFragments widthOf rows options
     else fastPathFragments rows options)

theorem letterLoop_fuel (k : Nat) : ∀ (fuel : Nat) (acc : List Char), k ≤ fuel →
    letterLoop fuel k acc = letterLoop k k acc := by
  induction k using Nat.strong_induction_on with
  | _ k ih =>
    match k with
    | 0 => intro fuel acc _; cases fuel <;> rfl
    | m + 1 =>
      intro fuel acc hf
      match fuel, hf with
      | f + 1, hf2 =>
        show letterLoop f (m / 26) _ = letterLoop m (m / 26) _
        have hd : m / 26 ≤ m := Nat.div_le_self m 26
        rw [ih (m / 26) (Nat.lt_succ_of_le hd) f _ (le_trans hd (Nat.le_of_succ_le_succ hf2)),
          ih (m / 26) (Nat.lt_succ_of_le hd) m _ hd]

theorem letterLoop_append (k : Nat) : ∀ acc : List Char,
    letterLoop k k acc = letterLoop k k [] ++ acc := by
  induction k using Nat.strong_induction_on with
  | _ k ih =>
    match k with
    | 0 => intro acc; rfl
    | m + 1 =>
      intro acc
      have hlt : m / 26 < m + 1 := Nat.lt_succ_of_le (Nat.div_le_self m 26)
      have hstep : ∀ a : List Char, letterLoop (m + 1) (m + 1) a
          = letterLoop (m / 26) (m / 26) (Char.ofNat (65 + m % 26) :: a) := by
        intro a
        show letterLoop m (m / 26) _ = _
        exact letterLoop_fuel _ _ _ (Nat.div_le_self m 26)
      rw [hstep acc, hstep [], ih _ hlt (Char.ofNat (65 + m % 26) :: acc),
        ih _ hlt [Char.ofNat (65 + m % 26)], List.append_assoc]
      rfl

theorem char_code_of_lt (r : Nat) (h : r < 26) :
    (Char.ofNat (65 + r)).toNat = 65 + r := by
  revert h; revert r; decide

theorem decode_letterLoop (k : Nat) : decodeLetters (letterLoop k k []) = k := by
  induction k using Nat.strong_induction_on with
  | _ k ih =>
    match k with
    | 0 => rfl
    | m + 1 =>
      have hlt : m / 26 < m + 1 := Nat.lt_succ_of_le (Nat.div_le_self m 26)
      have he : letterLoop (m + 1) (m + 1) []
          = letterLoop (m / 26) (m / 26) [] ++ [Char.ofNat (65 + m % 26)] := by
        have h1 : letterLoop (m + 1) (m + 1) []
            = letterLoop (m / 26) (m / 26) [Char.ofNat (65 + m % 26)] := by
          show letterLoop m (m / 26) _ = _
          exact letterLoop_fuel _ _ _ (Nat.div_le_self m 26)
        rw [h1, letterLoop_append]
      rw [he]
      unfold decodeLetters
      rw [List.foldl_append]
      have hv : letterVal (Char.ofNat (65 + m % 26)) = m % 26 + 1 := by
        unfold letterVal
        rw [char_code_of_lt (m % 26) (Nat.mod_lt _ (by decide))]
        omega
      show decodeLetters (letterLoop (m / 26) (m / 26) []) * 26
          + letterVal (Char.ofNat (65 + m % 26)) = m + 1
      rw [ih _ hlt, hv]
      have := Nat.div_add_mod m 26
      omega

theorem columnIndexToLetter_injective : Function.Injective columnIndexToLetter := by
  intro a b h
  have hd : letterLoop (a + 1) (a + 1) [] = letterLoop (b + 1) (b + 1) [] :=
    congrArg String.data h
  have := congrArg decodeLetters hd
  rw [decode_letterLoop, decode_letterLoop] at this
  omega

/-- Claim C4: `columnIndexToLetter` is an injection from 0-based column
indices to letter strings implementing 1-based bijective base-26; in
particular it maps 0 to "A", 25 to "Z", 26 to "AA", 701 to "ZZ" and
702 to "AAA". -/
theorem columnIndexToLetter_bijective_base26 :
    Function.Injective columnIndexToLetter ∧
    columnIndexToLetter 0 = "A" ∧
    columnIndexToLetter 25 = "Z" ∧
    columnIndexToLetter 26 = "AA" ∧
    columnIndexToLetter 701 = "ZZ" ∧
    columnIndexToLetter 702 = "AAA" :=
  ⟨columnIndexToLetter_injective, by decide, by decide, by decide, by decide, by decide⟩

/-- Witness for C4: the injectivity part applied at a concrete input,
together with one of the concrete conversions. -/
theorem columnIndexToLetter_bijective_base26_witness :
    (3 : Nat) = 3 ∧ columnIndexToLetter 702 = "AAA" :=
  ⟨columnIndexToLetter_bijective_base26.1 rfl,
   columnIndexToLetter_bijective_base26.2.2.2.2.2⟩

theorem firstPresentIdx_eq_head (cells : List (Option Cell)) :
    firstPresentIdx cells = (presentIndices cells).head? := by
  induction cells with
  | nil => rfl
  | cons c cs ih =>
    by_cases hc : c.isSome
    · simp [firstPresentIdx, presentIndices, hc]
    · simp [firstPresentIdx, presentIndices, hc, ih]

theorem presentIndices_cons (c : Option Cell) (cs : List (Option Cell)) :
    presentIndices (c :: cs) =
      if c.isSome then 0 :: (presentIndices cs).map (· + 1)
      else (presentIndices cs).map (· + 1) := rfl

theorem lastPresentIdx_eq_getLast (cells : List (Option Cell)) :
    lastPresentIdx cells = (presentIndices cells).getLast? := by
  induction cells with
  | nil => rfl
  | cons c cs ih =>
    show (match lastPresentIdx cs with
          | some j => some (j + 1)
          | none => if c.isSome then some 0 else none)
        = (presentIndices (c :: cs)).getLast?
    rw [ih, presentIndices_cons]
    by_cases hc : c.isSome
    · simp only [hc, if_true]
      cases hP : presentIndices cs with
      | nil => rfl
      | cons x xs =>
        have hg : (x :: xs).getLast? = some ((x :: xs).getLast (by simp)) :=
          List.getLast?_eq_getLast _ _
        rw [hg, List.map_cons, List.getLast?_cons_cons]
        conv_rhs => rw [show ((x + 1) :: List.map (fun y => y + 1) xs)
          = List.map (fun y => y + 1) (x :: xs) from rfl]
        rw [List.getLast?_map, hg]
        rfl
    · simp only [hc, Bool.false_eq_true, if_false]
      rw [List.getLast?_map]
      cases hP : (presentIndices cs).getLast? with
      | none => rfl
      | some j => rfl

/-- Claim C2: for a row whose present cells sit at exactly the 0-based
indices `i1 < ... < ik` (`k ≥ 1`), `serializeRow` emits a row element whose
spans attribute is exactly `i1+1:ik+1`; interior holes are skipped as cells
but do not shrink the span. -/
theorem serializeRow_spans (row : Row) (getStringIndex : Option (String → Nat))
    (is : List Nat) (hp : presentIndices row.cells = is) (h : is ≠ []) :
    serializeRow row getStringIndex =
      "<row" ++ (" r=\"" ++ toString (row.rowIndex.getD 1) ++ "\"") ++
        (" spans=\"" ++ toString (is.head h + 1) ++ ":" ++
          toString (is.getLast h + 1) ++ "\"") ++ ">" ++
        rowCellsXml row getStringIndex ++ "</row>" := by
  have hfirst : firstCol row.cells = is.head h + 1 := by
    unfold firstCol
    rw [firstPresentIdx_eq_head, hp, List.head?_eq_head h]
  have hlast : lastCol row.cells = is.getLast h + 1 := by
    unfold lastCol
    rw [lastPresentIdx_eq_getLast, hp, List.getLast?_eq_getLast _ h]
  unfold serializeRow
  rw [hfirst, hlast]

/-- Witness for C2: a sparse row with present cells at indices 1 and 3 and
row index 2 serializes with spans exactly `2:4`; the hole at index 2 emits
no cell but the span still reaches column 4. -/
theorem serializeRow_spans_witness :
    serializeRow ⟨[none, some ⟨CellValue.num 7, none⟩, none,
        some ⟨CellValue.num 9, none⟩], some 2⟩ none =
      "<row r=\"2\" spans=\"2:4\"><c r=\"B2\" s=\"0\"><v>7</v></c><c r=\"D2\" s=\"0\"><v>9</v></c></row>" := by
  have h := serializeRow_spans
    ⟨[none, some ⟨CellValue.num 7, none⟩, none, some ⟨CellValue.num 9, none⟩], some 2⟩
    none [1, 3] (by decide) (by decide)
  exact h.trans (by decide)

theorem presentIndices_all_absent (cells : List (Option Cell))
    (hall : ∀ c ∈ cells, c = none) : presentIndices cells = [] := by
  induction cells with
  | nil => rfl
  | cons c cs ih =>
    have hc : c = none := hall c (List.mem_cons_self c cs)
    have hcs : ∀ c' ∈ cs, c' = none := fun c' hm => hall c' (List.mem_cons_of_mem c hm)
    unfold presentIndices
    rw [hc, ih hcs]
    rfl

theorem rowCellsXmlAux_all_absent (getStringIndex : Option (String → Nat))
    (rowIndex : Nat) (cells : List (Option Cell)) :
    ∀ colIndex : Nat, (∀ c ∈ cells, c = none) →
      rowCellsXmlAux getStringIndex rowIndex colIndex cells = "" := by
  induction cells with
  | nil => intro _ _; rfl
  | cons c cs ih =>
    intro colIndex hall
    have hc : c = none := hall c (List.mem_cons_self c cs)
    have hcs : ∀ c' ∈ cs, c' = none := fun c' hm => hall c' (List.mem_cons_of_mem c hm)
    unfold rowCellsXmlAux
    rw [hc, ih (colIndex + 1) hcs]
    rfl

/-- Claim C9: a row with no present cells (empty cell array, or every slot a
hole) still emits a row element carrying `r` equal to the row index (1 when
absent) and `spans="1:1"`, with no cell children. -/
theorem serializeRow_no_present_cells (row : Row)
    (getStringIndex : Option (String → Nat))
    (hall : ∀ c ∈ row.cells, c = none) :
    serializeRow row getStringIndex =
      "<row" ++ (" r=\"" ++ toString (row.rowIndex.getD 1) ++ "\"") ++
        " spans=\"1:1\"" ++ ">" ++ "" ++ "</row>" := by
  have hP : presentIndices row.cells = [] := presentIndices_all_absent _ hall
  have hfp : firstPresentIdx row.cells = none := by
    rw [firstPresentIdx_eq_head, hP]; rfl
  have hlp : lastPresentIdx row.cells = none := by
    rw [lastPresentIdx_eq_getLast, hP]; rfl
  have h1 : firstCol row.cells = 1 := by unfold firstCol; rw [hfp]
  have h2 : lastCol row.cells = 1 := by unfold lastCol; rw [hlp]; exact h1
  have h3 : rowCellsXml row getStringIndex = "" := by
    unfold rowCellsXml
    exact rowCellsXmlAux_all_absent _ _ _ 0 hall
  unfold serializeRow
  rw [h1, h2, h3]
  rfl

/-- Witness for C9: a two-hole row with row index 5 serializes as an empty
row element with spans 1:1. -/
theorem serializeRow_no_present_cells_witness :
    serializeRow ⟨[none, none], some 5⟩ none = "<row r=\"5\" spans=\"1:1\"></row>" := by
  have h := serializeRow_no_present_cells ⟨[none, none], some 5⟩ none (by decide)
  exact h.trans (by decide)

/-- Claim C3: for every cell, 1-based row index and 0-based column index:
when the resolved tag is textual (`s`) and a shared-string resolver is
supplied, `serializeCell` emits a `t="s"` cell whose value is the resolver's
returned index; when the tag is textual and no resolver is supplied, it
emits an inline-string cell with XML-escaped text; otherwise it emits a
literal value cell carrying a `t` attribute equal to the resolved tag,
except the numeric tag `n`, for which no `t` attribute is emitted. -/
theorem serializeCell_typing (cell : Cell) (rowIndex colIndex : Nat) :
    ((resolveCell cell).t = Tag.s →
      (∀ f : String → Nat, serializeCell cell rowIndex colIndex (some f) =
        "<c" ++ (" r=\"" ++ getCellReference rowIndex colIndex ++ "\"") ++ " s=\"0\"" ++
          " t=\"s\"><v>" ++ toString (f (resolvedText (resolveCell cell).v)) ++ "</v></c>") ∧
      serializeCell cell rowIndex colIndex none =
        "<c" ++ (" r=\"" ++ getCellReference rowIndex colIndex ++ "\"") ++ " s=\"0\"" ++
          " t=\"inlineStr\"><is><t>" ++ escapeXml (resolvedText (resolveCell cell).v) ++
          "</t></is></c>") ∧
    ((resolveCell cell).t = Tag.n →
      ∀ g : Option (String → Nat), serializeCell cell rowIndex colIndex g =
        "<c" ++ (" r=\"" ++ getCellReference rowIndex colIndex ++ "\"") ++ " s=\"0\"" ++
          "><v>" ++ resolvedText (resolveCell cell).v ++ "</v></c>") ∧
    ((resolveCell cell).t ≠ Tag.s → (resolveCell cell).t ≠ Tag.n →
      ∀ g : Option (String → Nat), serializeCell cell rowIndex colIndex g =
        "<c" ++ (" r=\"" ++ getCellReference rowIndex colIndex ++ "\"") ++ " s=\"0\"" ++
          (" t=\"" ++ tagString (resolveCell cell).t ++ "\"") ++
          "><v>" ++ resolvedText (resolveCell cell).v ++ "</v></c>") := by
  refine ⟨fun h => ⟨fun f => ?_, ?_⟩, fun h g => ?_, fun hs hn g => ?_⟩
  · simp only [serializeCell]
    rw [if_pos h]
  · simp only [serializeCell]
    rw [if_pos h]
  · simp only [serializeCell]
    rw [if_neg (show ¬(resolveCell cell).t = Tag.s from by rw [h]; decide),
      if_neg (show ¬(resolveCell cell).t ≠ Tag.n from by rw [h]; decide),
      String.append_empty]
  · simp only [serializeCell]
    rw [if_neg hs, if_pos hn]

/-- Witness for C3: a string cell with resolver present becomes a
shared-string reference, without a resolver an escaped inline string; a
number cell carries no `t` attribute; a boolean cell is typed `t="b"`. -/
theorem serializeCell_typing_witness :
    serializeCell ⟨CellValue.str "a<b", none⟩ 1 0 (some (fun _ => 7)) =
      "<c r=\"A1\" s=\"0\" t=\"s\"><v>7</v></c>" ∧
    serializeCell ⟨CellValue.str "a<b", none⟩ 1 0 none =
      "<c r=\"A1\" s=\"0\" t=\"inlineStr\"><is><t>a&lt;b</t></is></c>" ∧
    serializeCell ⟨CellValue.num 42, none⟩ 1 1 none =
      "<c r=\"B1\" s=\"0\"><v>42</v></c>" ∧
    serializeCell ⟨CellValue.boolean true, none⟩ 2 3 none =
      "<c r=\"D2\" s=\"0\" t=\"b\"><v>1</v></c>" := by
  refine ⟨?_, ?_, ?_, ?_⟩
  · exact (((serializeCell_typing ⟨CellValue.str "a<b", none⟩ 1 0).1 rfl).1
      (fun _ => 7)).trans (by decide)
  · exact (((serializeCell_typing ⟨CellValue.str "a<b", none⟩ 1 0).1 rfl).2).trans (by decide)
  · exact ((serializeCell_typing ⟨CellValue.num 42, none⟩ 1 1).2.1 rfl none).trans (by decide)
  · exact ((serializeCell_typing ⟨CellValue.boolean true, none⟩ 2 3).2.2
      (by decide) (by decide) none).trans (by decide)

set_option maxHeartbeats 3200000 in
/-- Claim C5: with a definition giving column 2 an explicit width and a
definition auto-detecting over the range [0,3] (plus a width-less
definition for column 1, which is skipped, and a later duplicate for column
2, which is ignored), and for every tracked-width map: column 2 receives
its explicit width regardless of its tracked width, and each of columns
0, 1, 3 receives its tracked width when observed and otherwise the
configured default width. -/
theorem generateColsXml_width_precedence (w w' dflt : Nat) (t0 t1 t2 t3 : Option Nat) :
    generateColsXmlElements 3 (some dflt)
      (some [⟨some 1, none, none, none⟩,
             ⟨some 2, none, some w, none⟩,
             ⟨none, some (0, 3), none, some true⟩,
             ⟨some 2, none, some w', none⟩])
      (fun i => if i = 0 then t0 else if i = 1 then t1 else if i = 2 then t2
                else if i = 3 then t3 else none)
    = [colEl 2 2 w] ++
      (match t0 with | some v => [colEl 0 0 v] | none => []) ++
      (match t1 with | some v => [colEl 1 1 v] | none => []) ++
      (match t3 with | some v => [colEl 3 3 v] | none => []) ++
      (match t0 with | some _ => [] | none => [colEl 0 0 dflt]) ++
      (match t1 with | some _ => [] | none => [colEl 1 1 dflt]) ++
      (match t3 with | some _ => [] | none => [colEl 3 3 dflt]) := by
  cases t0 <;> cases t1 <;> cases t2 <;> cases t3 <;> rfl

theorem processDefs_append (maxColumnIndex : Int) (tracked : Int → Option Nat)
    (l1 l2 : List ColumnWidthDefinition) : ∀ st : ColsState,
    processDefs maxColumnIndex tracked (l1 ++ l2) st
      = processDefs maxColumnIndex tracked l2 (processDefs maxColumnIndex tracked l1 st) := by
  induction l1 with
  | nil => intro st; rfl
  | cons d ds ih =>
    intro st
    simp only [List.cons_append, processDefs]
    exact ih _

theorem applyDef_range_empty (maxColumnIndex : Int) (tracked : Int → Option Nat)
    (st : ColsState) (d : ColumnWidthDefinition) (f t : Int)
    (h1 : d.columnIndex = none) (h2 : d.columnRange = some (f, t)) (h3 : t < f) :
    applyDef maxColumnIndex tracked st d = st := by
  simp only [applyDef, h1, h2]
  rw [if_neg (show ¬(max 0 f ≤ min maxColumnIndex t) from by omega)]

/-- Counterexample to claim C7 as stated: a definition with a negative
`columnIndex` and an explicit width is not skipped: it passes the
`colIndex <= maxColumnIndex` guard and emits an out-of-range declaration
(`min="0"`), so the output differs from the one with the definition
absent. -/
theorem generateColsXml_negative_index_emits :
    generateColsXml 0 none (some [⟨some (-1), none, some 10, none⟩]) (fun _ => none)
      ≠ generateColsXml 0 none (some []) (fun _ => none) ∧
    generateColsXml 0 none (some [⟨some (-1), none, some 10, none⟩]) (fun _ => none)
      = "<cols>\n    <col min=\"0\" max=\"0\" width=\"10\" customWidth=\"1\"/>\n  </cols>" := by
  constructor
  · decide
  · decide

/-- Claim C7 (amended): a definition whose `columnRange` has `from > to`
has no effect: after clamping, the empty range fails the `min <= max`
guard, so no declaration is emitted, no error is raised and the remaining
definitions are processed as if it were absent.  (A definition with a
negative `columnIndex` is, contrary to the claim as stated, not checked:
with an explicit width it emits an out-of-range declaration.) -/
theorem generateColsXml_bad_range_skipped (maxColumnIndex : Int) (dw : Option Nat)
    (tracked : Int → Option Nat) (l1 l2 : List ColumnWidthDefinition)
    (d : ColumnWidthDefinition) (f t : Int)
    (h1 : d.columnIndex = none) (h2 : d.columnRange = some (f, t)) (h3 : t < f) :
    generateColsXml maxColumnIndex dw (some (l1 ++ d :: l2)) tracked
      = generateColsXml maxColumnIndex dw (some (l1 ++ l2)) tracked := by
  have key : processDefs maxColumnIndex tracked (l1 ++ d :: l2) ⟨[], []⟩
      = processDefs maxColumnIndex tracked (l1 ++ l2) ⟨[], []⟩ := by
    rw [processDefs_append, processDefs_append]
    show processDefs maxColumnIndex tracked l2
      (applyDef maxColumnIndex tracked (processDefs maxColumnIndex tracked l1 ⟨[], []⟩) d) = _
    rw [applyDef_range_empty maxColumnIndex tracked _ d f t h1 h2 h3]
  have keyE : generateColsXmlElements maxColumnIndex dw (some (l1 ++ d :: l2)) tracked
      = generateColsXmlElements maxColumnIndex dw (some (l1 ++ l2)) tracked := by
    simp only [generateColsXmlElements]
    rw [key]
  unfold generateColsXml
  rw [keyE]

/-- Witness for C7 (amended): a `from > to` range definition in front of a
per-index definition changes nothing. -/
theorem generateColsXml_bad_range_skipped_witness :
    generateColsXml 2 none
      (some [⟨none, some (4, 1), some 9, none⟩, ⟨some 0, none, some 5, none⟩])
      (fun _ => none)
      = generateColsXml 2 none (some [⟨some 0, none, some 5, none⟩]) (fun _ => none) :=
  generateColsXml_bad_range_skipped 2 none (fun _ => none) []
    [⟨some 0, none, some 5, none⟩] ⟨none, some (4, 1), some 9, none⟩ 4 1 rfl rfl (by decide)

/-- Counterexample to claim C6 as stated: with two observed columns
(`maxColumnIndex = 1`), a configured default width of 8, no definitions and
no tracked widths, the per-column pass already emits one declaration per
column, so two declarations appear instead of exactly one spanning
declaration. -/
theorem generateColsXml_default_span_counterexample :
    generateColsXmlElements 1 (some 8) none (fun _ => none)
      = [colEl 0 0 8, colEl 1 1 8] ∧
    (generateColsXmlElements 1 (some 8) none (fun _ => none)).length ≠ 1 := by
  constructor
  · decide
  · decide

theorem autoPassLoop_fresh_default (dflt : Nat) (cs : List Int) : ∀ st : ColsState,
    (∀ c ∈ cs, c ∉ st.processed) → cs.Nodup →
    autoPassLoop (some dflt) (fun _ => none) cs st
      = ⟨st.elements ++ cs.map (fun c => colEl c c dflt), st.processed ++ cs⟩ := by
  induction cs with
  | nil => intro st _ _; simp [autoPassLoop]
  | cons c cs ih =>
    intro st hfresh hnodup
    unfold autoPassLoop
    rw [if_neg (hfresh c (List.mem_cons_self c cs))]
    show autoPassLoop (some dflt) (fun _ => none) cs
      ⟨st.elements ++ [colEl c c dflt], st.processed ++ [c]⟩ = _
    have hfresh' : ∀ c' ∈ cs,
        c' ∉ (ColsState.mk (st.elements ++ [colEl c c dflt]) (st.processed ++ [c])).processed := by
      intro c' hc'
      simp only [List.mem_append, List.mem_singleton]
      push_neg
      exact ⟨hfresh c' (List.mem_cons_of_mem c hc'),
        fun he => absurd (he ▸ hc') (List.nodup_cons.mp hnodup).1⟩
    rw [ih _ hfresh' (List.nodup_cons.mp hnodup).2]
    simp [List.append_assoc]

theorem rangeList_nodup (lo hi : Int) : (rangeList lo hi).Nodup := by
  have hinj : Function.Injective (fun k : Nat => lo + Int.ofNat k) := by
    intro a b h
    have h' : lo + Int.ofNat a = lo + Int.ofNat b := h
    exact Int.ofNat.inj (add_left_cancel h')
  exact List.Nodup.map hinj (List.nodup_range _)

/-- Claim C6 (amended): when the definition pass and the tracked widths
yield no declarations but a global default width is configured and at least
one column was observed, the per-column pass emits one default-width
declaration for each observed column index 0..maxColumnIndex; the single
spanning declaration of the final fallback is not what is emitted in this
situation. -/
theorem generateColsXml_default_per_column (n dflt : Nat) :
    generateColsXmlElements (n : Int) (some dflt) none (fun _ => none)
      = (rangeList 0 (n : Int)).map (fun c => colEl c c dflt) := by
  have hne : (rangeList 0 (n : Int)).map (fun c => colEl c c dflt) ≠ [] := by
    unfold rangeList
    simp only [ne_eq, List.map_eq_nil_iff, List.range_eq_nil]
    omega
  simp only [generateColsXmlElements]
  rw [if_neg (show ¬((n : Int) < 0) from by omega)]
  rw [autoPassLoop_fresh_default dflt (rangeList 0 (n : Int)) ⟨[], []⟩
    (by intro c _; simp) (rangeList_nodup 0 (n : Int))]
  simp [hne]

theorem applyDef_index_out_of_range (maxColumnIndex : Int) (tracked : Int → Option Nat)
    (st : ColsState) (d : ColumnWidthDefinition) (ci : Int)
    (h1 : d.columnIndex = some ci) (h2 : maxColumnIndex < ci) :
    applyDef maxColumnIndex tracked st d = st := by
  simp only [applyDef, h1]
  rw [if_neg (fun hcon => absurd hcon.1 (not_le.mpr h2))]

theorem autoPassLoop_none_none (cs : List Int) : ∀ st : ColsState,
    autoPassLoop none (fun _ => none) cs st = st := by
  induction cs with
  | nil => intro st; rfl
  | cons c cs ih =>
    intro st
    unfold autoPassLoop
    by_cases h : c ∈ st.processed
    · rw [if_pos h]; exact ih st
    · rw [if_neg h]; exact ih st

/-- Claim C10: a per-column-index definition whose `columnIndex` is
strictly greater than the maximum observed column index produces no
declaration (the output is as if the definition were absent); a
`columnRange` definition with an explicit width is clamped to the
intersection of [from, to] with [0, maxColumnIndex], emitting one
declaration spanning exactly that clamped range and nothing when the
intersection is empty. -/
theorem generateColsXml_clamping (maxColumnIndex : Int) (dw : Option Nat)
    (tracked : Int → Option Nat) (l1 l2 : List ColumnWidthDefinition)
    (d : ColumnWidthDefinition) (ci f t : Int) (w : Nat) :
    (d.columnIndex = some ci → maxColumnIndex < ci →
      generateColsXml maxColumnIndex dw (some (l1 ++ d :: l2)) tracked
        = generateColsXml maxColumnIndex dw (some (l1 ++ l2)) tracked) ∧
    (d.columnIndex = none → d.columnRange = some (f, t) → d.autoDetect = none →
      d.width = some w →
      generateColsXmlElements maxColumnIndex none (some [d]) (fun _ => none)
        = if max 0 f ≤ min maxColumnIndex t then
            [colEl (max 0 f) (min maxColumnIndex t) w]
          else []) := by
  constructor
  · intro h1 h2
    have key : processDefs maxColumnIndex tracked (l1 ++ d :: l2) ⟨[], []⟩
        = processDefs maxColumnIndex tracked (l1 ++ l2) ⟨[], []⟩ := by
      rw [processDefs_append, processDefs_append]
      show processDefs maxColumnIndex tracked l2
        (applyDef maxColumnIndex tracked (processDefs maxColumnIndex tracked l1 ⟨[], []⟩) d) = _
      rw [applyDef_index_out_of_range maxColumnIndex tracked _ d ci h1 h2]
    have keyE : generateColsXmlElements maxColumnIndex dw (some (l1 ++ d :: l2)) tracked
        = generateColsXmlElements maxColumnIndex dw (some (l1 ++ l2)) tracked := by
      simp only [generateColsXmlElements]
      rw [key]
    unfold generateColsXml
    rw [keyE]
  · intro h1 h2 h3 h4
    by_cases hm : maxColumnIndex < 0
    · simp only [generateColsXmlElements]
      rw [if_pos hm, if_neg (show ¬(max 0 f ≤ min maxColumnIndex t) from by omega)]
    · have hstep : processDefs maxColumnIndex (fun _ => none) [d] ⟨[], []⟩
          = applyDef maxColumnIndex (fun _ => none) ⟨[], []⟩ d := rfl
      simp only [generateColsXmlElements]
      rw [if_neg hm, hstep]
      simp only [applyDef, h1, h2, h3, h4]
      by_cases hc : max 0 f ≤ min maxColumnIndex t
      · rw [if_pos hc, if_pos hc]
        simp only [Option.getD_none, Bool.false_eq_true, if_false]
        rw [autoPassLoop_none_none]
        simp
      · rw [if_neg hc, if_neg hc]
        rw [autoPassLoop_none_none]
        simp

/-- Witness for C10: a definition for column 5 with `maxColumnIndex = 1`
changes nothing, and a range [-2, 5] with explicit width 4 and
`maxColumnIndex = 3` is clamped to one declaration spanning columns
0 through 3. -/
theorem generateColsXml_clamping_witness :
    generateColsXml 1 none (some [⟨some 5, none, some 3, none⟩]) (fun _ => none)
      = generateColsXml 1 none (some []) (fun _ => none) ∧
    generateColsXmlElements 3 none (some [⟨none, some (-2, 5), some 4, none⟩])
      (fun _ => none) = [colEl 0 3 4] := by
  constructor
  · exact (generateColsXml_clamping 1 none (fun _ => none) [] []
      ⟨some 5, none, some 3, none⟩ 5 0 0 0).1 rfl (by decide)
  · exact ((generateColsXml_clamping 3 none (fun _ => none) [] []
      ⟨none, some (-2, 5), some 4, none⟩ 0 (-2) 5 4).2 rfl rfl rfl rfl).trans (by decide)

/-- Claim C1: for every fixed row sequence and fixed optional shared-string
resolver, with no column-width options configured the slow (buffered) path
of `writeSheetXml` yields exactly the fast path's fragment list: prolog
aside, `<sheetData>`, each serialized row in order and the closing
elements are byte-for-byte identical, the slow path merely omitting the
empty width-declaration block (and the empty `sheetFormatPr`). -/
theorem fast_slow_equivalence (widthOf : Cell → Nat) (rows : List Row)
    (getStringIndex : Option (String → Nat)) :
    slowPathFragments widthOf rows (some ⟨getStringIndex, none⟩)
      = fastPathFragments rows (some ⟨getStringIndex, none⟩) := rfl

/-- Claim C8: for every input row sequence and every configuration, the row
fragments appear in exactly the input arrival order, in the fast path, in
the slow (buffered) path, and in `writeSheetXml` itself: each fragment list
is some prefix, then `<sheetData>`, then one fragment per input row in
order, then the closing fragment. -/
theorem row_order_preserved (widthOf : Cell → Nat) (rows : List Row)
    (options : Option WriteSheetXmlOptions) :
    (∃ pre, fastPathFragments rows options
        = pre ++ ["<sheetData>"]
            ++ rows.map (fun r => serializeRow r (options.bind (fun o => o.getStringIndex)))
            ++ ["</sheetData></worksheet>"]) ∧
    (∃ pre, slowPathFragments widthOf rows options
        = pre ++ ["<sheetData>"]
            ++ rows.map (fun r => serializeRow r (options.bind (fun o => o.getStringIndex)))
            ++ ["</sheetData></worksheet>"]) ∧
    (∃ pre, writeSheetXml widthOf rows options
        = pre ++ ["<sheetData>"]
            ++ rows.map (fun r => serializeRow r (options.bind (fun o => o.getStringIndex)))
            ++ ["</sheetData></worksheet>"]) := by
  have hfast : ∃ pre, fastPathFragments rows options
      = pre ++ ["<sheetData>"]
          ++ rows.map (fun r => serializeRow r (options.bind (fun o => o.getStringIndex)))
          ++ ["</sheetData></worksheet>"] :=
    ⟨(match (options.bind (fun o => o.columnWidths)).bind (fun c => c.defaultColumnWidth) with
      | some d => [generateSheetFormatPr (some d)]
      | none => []), rfl⟩
  have hslow : ∃ pre, slowPathFragments widthOf rows options
      = pre ++ ["<sheetData>"]
          ++ rows.map (fun r => serializeRow r (options.bind (fun o => o.getStringIndex)))
          ++ ["</sheetData></worksheet>"] := by
    refine ⟨?_, ?_⟩
    · exact
        (if generateSheetFormatPr
            ((options.bind (fun o => o.columnWidths)).bind (fun c => c.defaultColumnWidth)) ≠ ""
         then [generateSheetFormatPr
            ((options.bind (fun o => o.columnWidths)).bind (fun c => c.defaultColumnWidth))]
         else []) ++
        (if (if needsColsXmlOf options then
              generateColsXml
                (rows.foldl (fun m r => max m (Int.ofNat r.cells.length - 1)) (-1))
                ((options.bind (fun o => o.columnWidths)).bind (fun c => c.defaultColumnWidth))
                ((options.bind (fun o => o.columnWidths)).bind (fun c => c.columnWidths))
                (getAllWidths (rows.foldl
                  (fun tk r => if needsWidthTrackingOf options then trackRow widthOf tk r else tk)
                  ⟨needsWidthTrackingOf options, []⟩))
            else "") ≠ ""
         then [(if needsColsXmlOf options then
              generateColsXml
                (rows.foldl (fun m r => max m (Int.ofNat r.cells.length - 1)) (-1))
                ((options.bind (fun o => o.columnWidths)).bind (fun c => c.defaultColumnWidth))
                ((options.bind (fun o => o.columnWidths)).bind (fun c => c.columnWidths))
                (getAllWidths (rows.foldl
                  (fun tk r => if needsWidthTrackingOf options then trackRow widthOf tk r else tk)
                  ⟨needsWidthTrackingOf options, []⟩))
            else "")]
         else [])
    · rfl
  refine ⟨hfast, hslow, ?_⟩
  unfold writeSheetXml
  by_cases h : needsColsXmlOf options = true
  · rw [if_pos h]
    obtain ⟨pre, hpre⟩ := hslow
    exact ⟨xmlPrologue :: pre, by rw [hpre]; simp⟩
  · rw [if_neg h]
    obtain ⟨pre, hpre⟩ := hfast
    exact ⟨xmlPrologue :: pre, by rw [hpre]; simp⟩
